import Mathlib

/-!
Verification of the dscli chunked upload engine (src/cmd/up.go).

The Go source stores a local file on a chat service by creating one text
channel per file (the channel topic records the decimal file size) and
posting the file bytes as a sequence of numbered attachments (blocks).
This file gives a shallow embedding of the upload command: the pure
decision logic of `up`, `uploadSingleFile`, `uploadChunkedFile`,
`verifyChunkSize` and `sendMessageWithRetry` is translated into Lean
functions, with the transport modelled as data (the channel message list)
and the performed remote writes collected as an event trace.

Conventions of the embedding:
  - file bytes are a `List Nat`; the stat size equals `fileData.length`;
  - a `Channel` carries its topic string and its messages oldest first;
    the source call `ChannelMessages(id, 1, "", "0", "")` (ascending from
    message id 0, page size 1) is `msgs.take 1`, and
    `ChannelMessages(id, 2, "", "", "")` (newest first, page size 2) is
    `msgs.reverse.take 2`;
  - remote writes (channel create, channel edit, message send, pin) and
    debug output become `Event` values in call order; reads are free;
  - message sends are modelled as succeeding; the retry wrapper around a
    send is modelled separately as `sendMessageWithRetry` over an
    explicit per-attempt outcome function;
  - Go `strconv.Itoa` / `strconv.FormatInt(n, 10)` is `toString`,
    `strconv.Atoi` on a block name is `atoi` below (block names are
    written by this engine as plain decimal digits);
  - the chunked loop of the source is a for loop; it is embedded with an
    explicit fuel argument that is structurally consumed, and the top
    level entry passes fuel `fileData.length`, which bounds the number of
    iterations because every iteration that continues consumes at least
    one byte.
-/

namespace Dscli

/-- Attachment metadata visible through the transport: display name and
payload size in bytes. -/
structure Attachment where
  filename : String
  size : Nat
  deriving DecidableEq, Repr

/-- A channel message; the source only ever inspects the attachment list. -/
structure Message where
  attachments : List Attachment
  deriving DecidableEq, Repr

/-- A channel standing for one remote file: its topic (decimal file size,
set at creation) and its messages, oldest first. -/
structure Channel where
  topic : String
  msgs : List Message
  deriving DecidableEq, Repr

/-- The error outcomes of the up command, one constructor per distinct
error return in src/cmd/up.go. -/
inductive UpError where
  | channelLimitReached
  | remoteExists
  | remoteMissing
  | sizeMismatch
  | cannotInferBlockSize
  | blockSizeExceedsLimit
  | incompleteLastBlock
  | malformedBlockName
  | alreadyComplete
  | chunkTooSmall
  | chunkSizeNonPositive
  | chunkSizeExceedsMax
  deriving DecidableEq, Repr

/-- A remote write or console output performed by the upload, in call
order. `logLine` is a line written through the log package, which prints
to standard error. -/
inductive Event where
  | chanCreate
  | chanEdit (topic : String)
  | send (name : String) (payload : List Nat)
  | pin (name : String)
  | logLine (line : String)
  deriving DecidableEq, Repr

instance {ε α : Type} [DecidableEq ε] [DecidableEq α] : DecidableEq (Except ε α) :=
  fun x y =>
  match x, y with
  | Except.ok a, Except.ok b =>
    if h : a = b then isTrue (by rw [h]) else isFalse (by intro hc; cases hc; exact h rfl)
  | Except.ok _, Except.error _ => isFalse (by intro hc; cases hc)
  | Except.error _, Except.ok _ => isFalse (by intro hc; cases hc)
  | Except.error a, Except.error b =>
    if h : a = b then isTrue (by rw [h]) else isFalse (by intro hc; cases hc; exact h rfl)

/-- The blocks sent by a run: attachment name and payload, in send order. -/
def sentBlocks (es : List Event) : List (String × List Nat) :=
  es.filterMap fun e =>
    match e with
    | Event.send name payload => some (name, payload)
    | _ => none

/-- The attachment names of the messages pinned by a run, in pin order. -/
def pinnedNames (es : List Event) : List String :=
  es.filterMap fun e =>
    match e with
    | Event.pin name => some name
    | _ => none

/-- The log lines emitted by a run, in order. -/
def loggedLines (es : List Event) : List String :=
  es.filterMap fun e =>
    match e with
    | Event.logLine line => some line
    | _ => none

/-- The debug line of the chunked loop, from
`log.Printf("Chunk %d: %d/%d bytes", blockNumber, offset, size)` in
src/cmd/up.go lines 302 to 303; `offset` is the stream position after the
read. The log package writes this to standard error. -/
def chunkLogLine (blockNumber offset size : Nat) : String :=
  "Chunk " ++ toString blockNumber ++ ": " ++ toString offset ++ "/" ++
    toString size ++ " bytes"

/-- The numeric value of a decimal digit character, if it is one. -/
def digitVal (c : Char) : Option Nat :=
  if 48 ≤ c.toNat ∧ c.toNat ≤ 57 then some (c.toNat - 48) else none

/-- Fold a digit string into its value; any non digit fails. -/
def parseDecimalAux : List Char → Nat → Option Nat
  | [], acc => some acc
  | c :: cs, acc =>
    match digitVal c with
    | none => none
    | some d => parseDecimalAux cs (acc * 10 + d)

/-- Go strconv.Atoi restricted to the unsigned decimal strings this
engine itself writes as block names: the empty string and any non digit
fail, a digit string parses as base 10. -/
def atoi (s : String) : Option Nat :=
  match s.data with
  | [] => none
  | l => parseDecimalAux l 0

/-- verifyChunkSize from src/cmd/up.go lines 81 to 89: the actual size
must be positive and at most the chunk size. -/
def verifyChunkSize (chunkSize actualSize : Nat) : Except UpError Unit :=
  if actualSize = 0 then Except.error UpError.chunkSizeNonPositive
  else if chunkSize < actualSize then Except.error UpError.chunkSizeExceedsMax
  else Except.ok ()

/-- The for loop of uploadChunkedFile, src/cmd/up.go lines 281 to 320.
State: `pos` is the file stream position (the source never repositions
the stream, so the first iteration reads from wherever the handle is,
which is byte 0), `bn` the block counter (`blockNumber` before the
increment at the top of the loop body), `first` the pin flag. Each
iteration reads `min chunkSize (fileData.length - pos)` bytes, breaks on
an empty read, validates the chunk, emits the debug line when debugging,
sends the chunk as a block named with the decimal block number, pins the
first block of a fresh transfer, and stops after a short read. `fuel`
structurally bounds the iteration count; the caller passes
`fileData.length`, which suffices because a continuing iteration consumes
exactly `chunkSize` bytes and `chunkSize` is positive there. -/
def uploadLoop (debug : Bool) (size chunkSize : Nat) (fileData : List Nat) :
    Nat → Nat → Nat → Bool → Except UpError (List Event)
  | 0, _, _, _ => Except.ok []
  | fuel + 1, pos, bn, first =>
    let blockNumber := bn + 1
    let buf := (fileData.drop pos).take chunkSize
    let n := buf.length
    if n = 0 then Except.ok []
    else
      match verifyChunkSize chunkSize n with
      | Except.error e => Except.error e
      | Except.ok _ =>
        let dbgEvents :=
          if debug then [Event.logLine (chunkLogLine blockNumber (pos + n) size)]
          else []
        let sendEvents := [Event.send (toString blockNumber) buf]
        let pinEvents := if first then [Event.pin (toString blockNumber)] else []
        if n < chunkSize then Except.ok (dbgEvents ++ sendEvents ++ pinEvents)
        else
          match uploadLoop debug size chunkSize fileData fuel (pos + n) blockNumber false with
          | Except.error e => Except.error e
          | Except.ok rest => Except.ok (dbgEvents ++ sendEvents ++ pinEvents ++ rest)

/-- uploadChunkedFile, src/cmd/up.go lines 264 to 323: subtract the 50
byte safety margin from the maximum chunk size, reject a nonpositive
result, then run the block loop from the current stream position (byte 0;
the source performs no seek even when `startBlock` is positive) with the
block counter starting at `startBlock` and the pin flag set on a fresh
transfer. -/
def uploadChunkedFile (debug resume : Bool) (size : Nat) (fileData : List Nat)
    (maxChunkSize : Nat) (startBlock : Nat) : Except UpError (List Event) :=
  let chunkSize := maxChunkSize - 50
  if chunkSize = 0 then Except.error UpError.chunkTooSmall
  else uploadLoop debug size chunkSize fileData fileData.length 0 startBlock (!resume)

/-- uploadSingleFile, src/cmd/up.go lines 232 to 261: send the whole file
as one block named "1" and pin its message unless resuming. -/
def uploadSingleFile (debug resume : Bool) (size : Nat) (fileData : List Nat) :
    Except UpError (List Event) :=
  Except.ok ([Event.send "1" fileData] ++ if resume then [] else [Event.pin "1"])

/-- The scan over the two newest messages, src/cmd/up.go lines 185 to
197: skip messages without attachments; at the first message with an
attachment, require its size to equal the inferred block size, then parse
its name as the last block index. When no message carries an attachment
the block number keeps its initial value 0. -/
def findLastBlock : List Message → Nat → Except UpError Nat
  | [], _ => Except.ok 0
  | m :: rest, cand =>
    match m.attachments with
    | [] => findLastBlock rest cand
    | att :: _ =>
      if att.size ≠ cand then Except.error UpError.incompleteLastBlock
      else
        match atoi att.filename with
        | none => Except.error UpError.malformedBlockName
        | some blockNumber => Except.ok blockNumber

/-- The resume inspection, src/cmd/up.go lines 154 to 201: require the
topic to equal the decimal local size, read the oldest message to obtain
the candidate block size, require it not to exceed the transport maximum,
find the last block index among the two newest messages, reject an
already complete transfer, and return the candidate block size together
with the last block index. -/
def inspectResume (channel : Channel) (size : Nat) (maxDiscordFileSize : Nat) :
    Except UpError (Nat × Nat) :=
  if channel.topic ≠ toString size then Except.error UpError.sizeMismatch
  else
    match channel.msgs.take 1 with
    | [] => Except.error UpError.cannotInferBlockSize
    | m :: _ =>
      match m.attachments with
      | [] => Except.error UpError.cannotInferBlockSize
      | att :: _ =>
        if maxDiscordFileSize < att.size then Except.error UpError.blockSizeExceedsLimit
        else
          match findLastBlock (channel.msgs.reverse.take 2) att.size with
          | Except.error e => Except.error e
          | Except.ok blockNumber =>
            if blockNumber * att.size = size then Except.error UpError.alreadyComplete
            else Except.ok (att.size, blockNumber)

/-- The up command handler, src/cmd/up.go lines 92 to 229. Parameters
stand for the ambient state the source reads before deciding anything:
the parsed file map (remote name to channel), the channel limit, the
transport reported maximum attachment size, the opened local file bytes
and the remote name. Control flow follows the source: the channel limit
check applies only to fresh uploads; a fresh upload requires the remote
name to be absent and a resumed one requires it to be present; a resumed
upload runs the resume inspection and thereafter uses the inferred
candidate block size as the maximum attachment size and the inferred last
block index as the starting block; a fresh upload creates the channel and
sets its topic to the decimal file size; finally the single shot path is
taken when the size is at most the (possibly reassigned) maximum
attachment size, else the chunked path. -/
def up (resume debug : Bool) (fileMap : List (String × Channel))
    (maxDiscordChannels maxDiscordFileSize : Nat) (fileData : List Nat)
    (remote : String) : Except UpError (List Event) :=
  if resume = false ∧ maxDiscordChannels ≤ fileMap.length then
    Except.error UpError.channelLimitReached
  else
    match fileMap.lookup remote, resume with
    | some _, false => Except.error UpError.remoteExists
    | none, true => Except.error UpError.remoteMissing
    | some channel, true =>
      let size := fileData.length
      match inspectResume channel size maxDiscordFileSize with
      | Except.error e => Except.error e
      | Except.ok (cand, blockNumber) =>
        if size ≤ cand then uploadSingleFile debug true size fileData
        else uploadChunkedFile debug true size fileData cand blockNumber
    | none, false =>
      let size := fileData.length
      let pre := [Event.chanCreate, Event.chanEdit (toString size)]
      let res :=
        if size ≤ maxDiscordFileSize then uploadSingleFile debug false size fileData
        else uploadChunkedFile debug false size fileData maxDiscordFileSize 0
      match res with
      | Except.error e => Except.error e
      | Except.ok es => Except.ok (pre ++ es)

/-- The retry loop of sendMessageWithRetry, src/cmd/up.go lines 52 to 63,
over an explicit outcome function `attempt` (attempt index to result).
`rem` counts the remaining loop iterations (`maxTries - i`) and is the
structural recursion argument; `i` is the loop index and `lastErr` the
error of the latest failed attempt. The returned triple is the result
(success value, or the terminal error wrapping the attempt count and the
last failure), the number of attempts performed, and the list of backoff
waits in seconds in sleep order. -/
def sendLoop {ε μ : Type} (attempt : Nat → Except ε μ) (maxTries : Nat) :
    Nat → Nat → Option ε → (Except (Nat × Option ε) μ) × Nat × List Nat
  | 0, _, lastErr => (Except.error (maxTries, lastErr), 0, [])
  | rem + 1, i, _ =>
    match attempt i with
    | Except.ok m => (Except.ok m, 1, [])
    | Except.error e =>
      let r := sendLoop attempt maxTries rem (i + 1) (some e)
      if i < maxTries - 1 then (r.1, r.2.1 + 1, (i + 1) :: r.2.2)
      else (r.1, r.2.1 + 1, r.2.2)

/-- sendMessageWithRetry, src/cmd/up.go lines 48 to 66: run up to
`maxTries` attempts, return the first success, sleep `i + 1` seconds
after a failed attempt `i` that is not the last, and after exhaustion
return the terminal error wrapping the attempt count and the last
underlying failure. -/
def sendMessageWithRetry {ε μ : Type} (attempt : Nat → Except ε μ)
    (maxTries : Nat) : (Except (Nat × Option ε) μ) × Nat × List Nat :=
  sendLoop attempt maxTries maxTries 0 none

/-- Debug progress line in the form the spec describes, following its
words: when debug mode is enabled each block emits a line
`totalSize bytesProcessedSoFar` to standard output. Stated only for
comparison with `chunkLogLine`, the line the source actually formats. -/
def specDebugLine (totalSize bytesProcessedSoFar : Nat) : String :=
  toString totalSize ++ " " ++ toString bytesProcessedSoFar

/-- A 204 byte test file. -/
def f204 : List Nat := List.range 204

/-- The remote container of `f204` after a fresh chunked upload with
transport maximum 152 (block size 102) was interrupted after block 1:
topic records the size 204 and the only message carries attachment "1"
of 102 bytes. -/
def ch204 : Channel :=
  { topic := "204", msgs := [{ attachments := [{ filename := "1", size := 102 }] }] }

/-- The events of the uninterrupted fresh upload of `f204` with
transport maximum 152: two blocks of 102 bytes. -/
def freshEvents204 : List Event :=
  [Event.chanCreate, Event.chanEdit "204",
    Event.send "1" (f204.take 102), Event.pin "1",
    Event.send "2" (f204.drop 102)]

/-- The events of resuming the interrupted upload of `f204` against
`ch204`: the source reassigns the maximum attachment size to the inferred
candidate 102, subtracts the 50 byte margin again to obtain chunk size
52, and reads the local file from byte 0 because it never seeks, so the
resumed blocks repeat the beginning of the file under fresh indices. -/
def resumedEvents204 : List Event :=
  [Event.send "2" (f204.take 52),
    Event.send "3" ((f204.drop 52).take 52),
    Event.send "4" ((f204.drop 104).take 52),
    Event.send "5" (f204.drop 156)]

/-- The events of the fresh debug mode chunked upload of `f204` with
transport maximum 152. -/
def debugEvents204 : List Event :=
  [Event.chanCreate, Event.chanEdit "204",
    Event.logLine (chunkLogLine 1 102 204),
    Event.send "1" (f204.take 102), Event.pin "1",
    Event.logLine (chunkLogLine 2 204 204),
    Event.send "2" (f204.drop 102)]

/-- Unfolding helper: the retry loop succeeds immediately when the
current attempt succeeds. -/
theorem sendLoop_success {ε μ : Type} (attempt : Nat → Except ε μ) (maxTries : Nat) :
    ∀ k i le m, i + k < maxTries →
      (∀ j, i ≤ j → j < i + k → ∃ e, attempt j = Except.error e) →
      attempt (i + k) = Except.ok m →
      sendLoop attempt maxTries (maxTries - i) i le =
        (Except.ok m, k + 1, List.range' (i + 1) k) := by
  intro k
  induction k with
  | zero =>
    intro i le m hlt _ hok
    obtain ⟨r, hr⟩ : ∃ r, maxTries - i = r + 1 := ⟨maxTries - i - 1, by omega⟩
    rw [hr]
    simp only [Nat.add_zero] at hok
    simp [sendLoop, hok, List.range']
  | succ k ih =>
    intro i le m hlt hfail hok
    obtain ⟨e, he⟩ := hfail i (Nat.le_refl i) (by omega)
    obtain ⟨r, hr⟩ : ∃ r, maxTries - i = r + 1 := ⟨maxTries - i - 1, by omega⟩
    have hrec : maxTries - (i + 1) = r := by omega
    have hstep : i < maxTries - 1 := by omega
    have ihv := ih (i + 1) (some e) m (by omega)
      (fun j h1 h2 => hfail j (by omega) (by omega))
      (by have : i + 1 + k = i + (k + 1) := by omega
          rw [this]; exact hok)
    rw [hr]
    simp only [sendLoop, he]
    rw [hrec] at ihv
    rw [ihv]
    simp [hstep, List.range'_succ]

/-- Unfolding helper: when every attempt from `i` on fails, the retry
loop exhausts its attempts, returns the terminal error wrapping the last
failure, and sleeps after every failed attempt except the last. -/
theorem sendLoop_exhaust {ε μ : Type} (attempt : Nat → Except ε μ) (maxTries : Nat) :
    ∀ rem i le, rem = maxTries - i → i < maxTries →
      (∀ j, i ≤ j → j < maxTries → ∃ e, attempt j = Except.error e) →
      ∃ e, attempt (maxTries - 1) = Except.error e ∧
        sendLoop attempt maxTries rem i le =
          (Except.error (maxTries, some e), maxTries - i,
            List.range' (i + 1) (maxTries - 1 - i)) := by
  intro rem
  induction rem with
  | zero => intro i le hrem hlt _; omega
  | succ r ih =>
    intro i le hrem hlt hfail
    obtain ⟨e, he⟩ := hfail i (Nat.le_refl i) hlt
    by_cases hlast : i < maxTries - 1
    · obtain ⟨e2, he2, hloop⟩ := ih (i + 1) (some e) (by omega) (by omega)
        (fun j h1 h2 => hfail j (by omega) h2)
      refine ⟨e2, he2, ?_⟩
      simp only [sendLoop, he, hloop, hlast, if_true]
      have h1 : maxTries - (i + 1) + 1 = maxTries - i := by omega
      have h2 : maxTries - 1 - i = (maxTries - 1 - (i + 1)) + 1 := by omega
      rw [h2, List.range'_succ, h1]
    · have hi : i = maxTries - 1 := by omega
      refine ⟨e, by rw [← hi]; exact he, ?_⟩
      have hr0 : r = 0 := by omega
      subst hr0
      simp only [sendLoop, he, hlast, if_false]
      have h1 : maxTries - i = 1 := by omega
      have h2 : maxTries - 1 - i = 0 := by omega
      simp [h1, h2, List.range']

/-- Claim C4: a wrapped remote send that fails `k` times with
`k < maxTries` and then succeeds returns that success after exactly
`k + 1` attempts, having slept `1, 2, ..., k` seconds after the failed
attempts (failed attempt `i`, 0-indexed, sleeps `i + 1`); a send whose
every attempt fails performs exactly `maxTries` attempts, sleeps
`1, 2, ..., maxTries - 1` seconds (none after the final attempt), and
returns the terminal error wrapping the attempt count and the last
underlying failure; the total backoff on exhaustion is
`1 + 2 + ... + (maxTries - 1)` seconds. -/
theorem sendMessageWithRetry_spec {ε μ : Type} (attempt : Nat → Except ε μ)
    (maxTries : Nat) :
    (∀ k m, k < maxTries →
      (∀ j, j < k → ∃ e, attempt j = Except.error e) →
      attempt k = Except.ok m →
      sendMessageWithRetry attempt maxTries =
        (Except.ok m, k + 1, List.range' 1 k)) ∧
    ((∀ j, j < maxTries → ∃ e, attempt j = Except.error e) → 0 < maxTries →
      ∃ e, attempt (maxTries - 1) = Except.error e ∧
        sendMessageWithRetry attempt maxTries =
          (Except.error (maxTries, some e), maxTries,
            List.range' 1 (maxTries - 1))) ∧
    (List.range' 1 (maxTries - 1)).sum * 2 = (maxTries - 1) * maxTries := by
  refine ⟨?_, ?_, ?_⟩
  · intro k m hk hfail hok
    have h := sendLoop_success attempt maxTries k 0 none m (by omega)
      (fun j h1 h2 => hfail j (by omega)) (by simpa using hok)
    simpa [sendMessageWithRetry] using h
  · intro hfail hpos
    obtain ⟨e, he, hloop⟩ := sendLoop_exhaust attempt maxTries maxTries 0 none
      (by omega) hpos (fun j _ h2 => hfail j h2)
    exact ⟨e, he, by simpa [sendMessageWithRetry] using hloop⟩
  · induction maxTries with
    | zero => simp [List.range']
    | succ n ihn =>
      cases n with
      | zero => simp [List.range']
      | succ m =>
        have hm : (m + 1 + 1) - 1 = m + 1 := by omega
        rw [hm, List.range'_concat]
        simp only [List.sum_append, List.sum_cons, List.sum_nil]
        have hm2 : (m + 1) - 1 = m := by omega
        rw [hm2] at ihn
        nlinarith [ihn]

/-- Witness for C4: a concrete send that fails twice then succeeds is
reported as success after 3 attempts with sleeps 1 and 2; a send that
always fails exhausts 3 attempts, sleeps 1 and 2, and wraps the last
failure. -/
theorem sendMessageWithRetry_spec_witness :
    sendMessageWithRetry (fun i => if i < 2 then Except.error i else Except.ok 7) 4 =
      (Except.ok 7, 3, List.range' 1 2) ∧
    (∃ e, (fun i => (Except.error i : Except Nat Nat)) (3 - 1) = Except.error e ∧
      sendMessageWithRetry (fun i => (Except.error i : Except Nat Nat)) 3 =
        (Except.error (3, some e), 3, List.range' 1 (3 - 1))) := by
  constructor
  · exact (sendMessageWithRetry_spec (fun i => if i < 2 then Except.error i else Except.ok 7) 4).1
      2 7 (by omega) (fun j hj => ⟨j, by simp [hj]⟩) (by simp)
  · exact (sendMessageWithRetry_spec (fun i => (Except.error i : Except Nat Nat)) 3).2.1
      (fun j _ => ⟨j, rfl⟩) (by omega)

set_option maxRecDepth 16384 in
/-- Claim C1 counterexample: uploading the 204 byte file `f204` with
transport maximum 152 writes blocks 1 and 2 of 102 bytes, whose
concatenation is the file; interrupting after block 1 (container `ch204`)
and resuming writes blocks starting at index 2 as the claim says, but the
local file is read from byte offset 0 rather than
`lastBlockIndex * candidateBlockSize = 102` (the source never seeks), and
with chunk size 52 rather than 102, so the resumed container
concatenation `block1 ++ resumed blocks` is not the file and differs from
the uninterrupted upload. -/
theorem resume_continuation_cex :
    up false false [] 5 152 f204 "t" = Except.ok freshEvents204 ∧
    ((sentBlocks freshEvents204).map Prod.snd).flatten = f204 ∧
    up true false [("t", ch204)] 5 152 f204 "t" = Except.ok resumedEvents204 ∧
    (sentBlocks resumedEvents204).map Prod.fst = ["2", "3", "4", "5"] ∧
    ((sentBlocks resumedEvents204).map Prod.snd).head? = some (f204.take 52) ∧
    f204.take 52 ≠ (f204.drop 102).take 52 ∧
    f204.take 102 ++ ((sentBlocks resumedEvents204).map Prod.snd).flatten ≠ f204 := by
  decide

set_option maxRecDepth 16384 in
/-- Claim C2 counterexample: resuming the interrupted upload of `f204`
infers candidate block size 102 and last block index 1, but every block
written after the resume point has payload size 52 (the source subtracts
the 50 byte safety margin a second time from the inferred candidate), not
the candidate 102. -/
theorem resume_block_size_cex :
    inspectResume ch204 204 152 = Except.ok (102, 1) ∧
    up true false [("t", ch204)] 5 152 f204 "t" = Except.ok resumedEvents204 ∧
    (sentBlocks resumedEvents204).map (fun b => b.2.length) = [52, 52, 52, 48] ∧
    (52 : Nat) ≠ 102 := by
  decide

set_option maxRecDepth 16384 in
/-- Claim C6 counterexample: the fresh debug mode chunked upload of
`f204` emits, per block, one line through the log package (standard
error, src/cmd/up.go line 303) in the form
`Chunk blockNumber: offset/size bytes`, which differs from the
`totalSize bytesProcessedSoFar` line the spec describes. -/
theorem debug_output_cex :
    up false true [] 5 152 f204 "t" = Except.ok debugEvents204 ∧
    loggedLines debugEvents204 = [chunkLogLine 1 102 204, chunkLogLine 2 204 204] ∧
    chunkLogLine 1 102 204 = "Chunk 1: 102/204 bytes" ∧
    specDebugLine 204 102 = "204 102" ∧
    chunkLogLine 1 102 204 ≠ specDebugLine 204 102 ∧
    chunkLogLine 2 204 204 ≠ specDebugLine 204 204 := by
  decide

theorem sentBlocks_append (a b : List Event) :
    sentBlocks (a ++ b) = sentBlocks a ++ sentBlocks b :=
  List.filterMap_append a b _

theorem sentBlocks_dbg (debug : Bool) (s : String) :
    sentBlocks (if debug then [Event.logLine s] else []) = [] := by
  cases debug <;> simp [sentBlocks]

theorem sentBlocks_pinEvents (first : Bool) (s : String) :
    sentBlocks (if first then [Event.pin s] else []) = [] := by
  cases first <;> simp [sentBlocks]

theorem sentBlocks_send (n : String) (p : List Nat) :
    sentBlocks [Event.send n p] = [(n, p)] := by
  simp [sentBlocks]

theorem pinnedNames_append (a b : List Event) :
    pinnedNames (a ++ b) = pinnedNames a ++ pinnedNames b :=
  List.filterMap_append a b _

theorem pinnedNames_dbg (debug : Bool) (s : String) :
    pinnedNames (if debug then [Event.logLine s] else []) = [] := by
  cases debug <;> simp [pinnedNames]

theorem pinnedNames_send (n : String) (p : List Nat) :
    pinnedNames [Event.send n p] = [] := by
  simp [pinnedNames]

theorem pinnedNames_pinEvents (first : Bool) (s : String) :
    pinnedNames (if first then [Event.pin s] else []) = if first then [s] else [] := by
  cases first <;> simp [pinnedNames]

theorem pinnedNames_pin (s : String) : pinnedNames [Event.pin s] = [s] := by
  simp [pinnedNames]

theorem verifyChunkSize_ok {B n : Nat} (h0 : n ≠ 0) (hle : n ≤ B) :
    verifyChunkSize B n = Except.ok () := by
  unfold verifyChunkSize
  rw [if_neg h0, if_neg (Nat.not_lt.mpr hle)]

/-- When the stream position is at or past the end of the file, the
chunked loop reads nothing and stops without events. -/
theorem uploadLoop_empty (debug : Bool) (size B : Nat) (f : List Nat) :
    ∀ fuel pos bn first, f.length ≤ pos →
      uploadLoop debug size B f fuel pos bn first = Except.ok [] := by
  intro fuel pos bn first hpos
  cases fuel with
  | zero => rfl
  | succ fuel =>
    have hnil : f.drop pos = [] := List.drop_eq_nil_of_le hpos
    simp [uploadLoop, hnil]

/-- The chunked loop never fails: the chunk it reads is nonempty (else it
stops first) and never longer than the chunk size, so verifyChunkSize
always passes. -/
theorem uploadLoop_isOk (debug : Bool) (size B : Nat) (f : List Nat) :
    ∀ fuel pos bn first, ∃ es,
      uploadLoop debug size B f fuel pos bn first = Except.ok es := by
  intro fuel
  induction fuel with
  | zero => intro pos bn first; exact ⟨[], rfl⟩
  | succ fuel ih =>
    intro pos bn first
    by_cases h0 : ((f.drop pos).take B).length = 0
    · exact ⟨[], by simp [uploadLoop, h0]⟩
    · have hle : ((f.drop pos).take B).length ≤ B := by
        simp [List.length_take]
      obtain ⟨rest, hrest⟩ := ih (pos + ((f.drop pos).take B).length) (bn + 1) false
      simp only [uploadLoop, h0, if_false, verifyChunkSize_ok h0 hle]
      by_cases hshort : ((f.drop pos).take B).length < B
      · rw [if_pos hshort]
        exact ⟨_, rfl⟩
      · rw [if_neg hshort, hrest]
        exact ⟨_, rfl⟩

/-- The payloads sent by the chunked loop concatenate to exactly the
bytes of the file from the starting position on, provided the fuel covers
the remaining byte count. -/
theorem uploadLoop_flatten (debug : Bool) (size B : Nat) (hB : 0 < B) (f : List Nat) :
    ∀ fuel pos bn first es, f.length - pos ≤ fuel →
      uploadLoop debug size B f fuel pos bn first = Except.ok es →
      ((sentBlocks es).map Prod.snd).flatten = f.drop pos := by
  intro fuel
  induction fuel with
  | zero =>
    intro pos bn first es hle hup
    have hpos : f.length ≤ pos := by omega
    rw [List.drop_eq_nil_of_le hpos]
    simp only [uploadLoop] at hup
    injection hup with h
    subst h
    simp [sentBlocks]
  | succ fuel ih =>
    intro pos bn first es hle hup
    by_cases h0 : ((f.drop pos).take B).length = 0
    · simp only [uploadLoop, h0, if_pos] at hup
      injection hup with h
      subst h
      have hnil : (f.drop pos).take B = [] := List.length_eq_zero.mp h0
      rcases List.take_eq_nil_iff.mp hnil with hB0 | hdnil
      · omega
      · rw [hdnil]; simp [sentBlocks]
    · have hle2 : ((f.drop pos).take B).length ≤ B := by simp [List.length_take]
      have hlen : ((f.drop pos).take B).length = min B (f.length - pos) := by
        simp [List.length_take, List.length_drop]
      by_cases hshort : ((f.drop pos).take B).length < B
      · simp only [uploadLoop, h0, if_false, verifyChunkSize_ok h0 hle2,
          if_pos hshort] at hup
        injection hup with h
        subst h
        rw [sentBlocks_append, sentBlocks_append, sentBlocks_dbg, sentBlocks_pinEvents,
          sentBlocks_send]
        have hrem : f.length - pos < B := by omega
        have : (f.drop pos).take B = f.drop pos :=
          List.take_of_length_le (by simp [List.length_drop]; omega)
        simp [this]
      · have hfull : ((f.drop pos).take B).length = B := by omega
        simp only [uploadLoop, h0, if_false, verifyChunkSize_ok h0 hle2,
          if_neg hshort] at hup
        obtain ⟨rest, hrest⟩ := uploadLoop_isOk debug size B f fuel
          (pos + ((f.drop pos).take B).length) (bn + 1) false
        rw [hrest] at hup
        injection hup with h
        subst h
        have hih := ih (pos + ((f.drop pos).take B).length) (bn + 1) false rest
          (by omega) hrest
        simp only [sentBlocks_append, sentBlocks_dbg, sentBlocks_pinEvents,
          sentBlocks_send, List.nil_append, List.append_nil, List.map_cons,
          List.map_append, List.map_nil, List.flatten_cons, List.flatten_append,
          List.flatten_nil]
        rw [hih, hfull]
        have hdd : f.drop (pos + B) = (f.drop pos).drop B := by
          rw [List.drop_drop]
        rw [hdd, List.take_append_drop]

/-- The names of the blocks sent by the chunked loop are the decimal
strings of the contiguous indices `bn + 1, ..., bn + k`, where `k` is the
ceiling of the remaining byte count divided by the chunk size. -/
theorem uploadLoop_names (debug : Bool) (size B : Nat) (hB : 0 < B) (f : List Nat) :
    ∀ fuel pos bn first es, f.length - pos ≤ fuel →
      uploadLoop debug size B f fuel pos bn first = Except.ok es →
      (sentBlocks es).map Prod.fst =
        (List.range' (bn + 1) ((f.length - pos + B - 1) / B)).map (fun i => toString i) := by
  intro fuel
  induction fuel with
  | zero =>
    intro pos bn first es hle hup
    simp only [uploadLoop] at hup
    injection hup with h
    subst h
    have hk : (f.length - pos + B - 1) / B = 0 := Nat.div_eq_of_lt (by omega)
    simp [sentBlocks, hk]
  | succ fuel ih =>
    intro pos bn first es hle hup
    by_cases h0 : ((f.drop pos).take B).length = 0
    · simp only [uploadLoop, h0, if_pos] at hup
      injection hup with h
      subst h
      have hlen : ((f.drop pos).take B).length = min B (f.length - pos) := by
        simp [List.length_take, List.length_drop]
      have hrem : f.length - pos = 0 := by omega
      have hk : (f.length - pos + B - 1) / B = 0 := Nat.div_eq_of_lt (by omega)
      simp [sentBlocks, hk]
    · have hle2 : ((f.drop pos).take B).length ≤ B := by simp [List.length_take]
      have hlen : ((f.drop pos).take B).length = min B (f.length - pos) := by
        simp [List.length_take, List.length_drop]
      by_cases hshort : ((f.drop pos).take B).length < B
      · simp only [uploadLoop, h0, if_false, verifyChunkSize_ok h0 hle2,
          if_pos hshort] at hup
        injection hup with h
        subst h
        have hk : (f.length - pos + B - 1) / B = 1 := by
          have h3 : f.length - pos + B - 1 = (f.length - pos - 1) + B := by omega
          rw [h3, Nat.add_div_right _ hB, Nat.div_eq_of_lt (by omega)]
        rw [hk]
        simp only [sentBlocks_append, sentBlocks_dbg, sentBlocks_pinEvents,
          sentBlocks_send, List.nil_append, List.append_nil, List.map_cons,
          List.map_nil, List.range'_succ]
        simp [List.range']
      · have hfull : ((f.drop pos).take B).length = B := by omega
        have hBrem : B ≤ f.length - pos := by omega
        simp only [uploadLoop, h0, if_false, verifyChunkSize_ok h0 hle2,
          if_neg hshort] at hup
        obtain ⟨rest, hrest⟩ := uploadLoop_isOk debug size B f fuel
          (pos + ((f.drop pos).take B).length) (bn + 1) false
        rw [hrest] at hup
        injection hup with h
        subst h
        have hih := ih (pos + ((f.drop pos).take B).length) (bn + 1) false rest
          (by omega) hrest
        rw [hfull] at hih
        have harith : f.length - pos + B - 1 = (f.length - (pos + B) + B - 1) + B := by
          omega
        rw [harith, Nat.add_div_right _ hB, List.range'_succ]
        simp only [sentBlocks_append, sentBlocks_dbg, sentBlocks_pinEvents,
          sentBlocks_send, List.nil_append, List.append_nil, List.map_cons,
          List.map_append, List.map_nil, hfull]
        rw [hih]
        simp

/-- The payload sizes of the blocks sent by the chunked loop: every block
except the last is exactly the chunk size, and the last is the remainder
(or a full chunk when the chunk size divides the remaining byte count). -/
theorem uploadLoop_sizes (debug : Bool) (size B : Nat) (hB : 0 < B) (f : List Nat) :
    ∀ fuel pos bn first es, f.length - pos ≤ fuel → 0 < f.length - pos →
      uploadLoop debug size B f fuel pos bn first = Except.ok es →
      (sentBlocks es).map (fun b => b.2.length) =
        List.replicate ((f.length - pos + B - 1) / B - 1) B ++
          [if (f.length - pos) % B = 0 then B else (f.length - pos) % B] := by
  intro fuel
  induction fuel with
  | zero => intro pos bn first es hle hpos hup; omega
  | succ fuel ih =>
    intro pos bn first es hle hpos hup
    have hlen : ((f.drop pos).take B).length = min B (f.length - pos) := by
      simp [List.length_take, List.length_drop]
    by_cases h0 : ((f.drop pos).take B).length = 0
    · omega
    · have hle2 : ((f.drop pos).take B).length ≤ B := by simp [List.length_take]
      by_cases hshort : ((f.drop pos).take B).length < B
      · simp only [uploadLoop, h0, if_false, verifyChunkSize_ok h0 hle2,
          if_pos hshort] at hup
        injection hup with h
        subst h
        have hrem : f.length - pos < B := by omega
        have hk : (f.length - pos + B - 1) / B = 1 := by
          have h3 : f.length - pos + B - 1 = (f.length - pos - 1) + B := by omega
          rw [h3, Nat.add_div_right _ hB, Nat.div_eq_of_lt (by omega)]
        have hmod : (f.length - pos) % B = f.length - pos := Nat.mod_eq_of_lt hrem
        rw [hk, hmod]
        simp only [sentBlocks_append, sentBlocks_dbg, sentBlocks_pinEvents,
          sentBlocks_send, List.nil_append, List.append_nil, List.map_cons,
          List.map_nil]
        rw [if_neg (by omega)]
        simp [List.replicate]
        omega
      · have hfull : ((f.drop pos).take B).length = B := by omega
        have hBrem : B ≤ f.length - pos := by omega
        simp only [uploadLoop, h0, if_false, verifyChunkSize_ok h0 hle2,
          if_neg hshort] at hup
        obtain ⟨rest, hrest⟩ := uploadLoop_isOk debug size B f fuel
          (pos + ((f.drop pos).take B).length) (bn + 1) false
        rw [hrest] at hup
        injection hup with h
        subst h
        by_cases hexact : f.length - pos = B
        · have hempty : uploadLoop debug size B f fuel
              (pos + ((f.drop pos).take B).length) (bn + 1) false = Except.ok [] :=
            uploadLoop_empty debug size B f fuel _ (bn + 1) false (by omega)
          rw [hempty] at hrest
          injection hrest with h2
          subst h2
          have hk : (f.length - pos + B - 1) / B = 1 := by
            rw [hexact]
            have h3 : B + B - 1 = (B - 1) + B := by omega
            rw [h3, Nat.add_div_right _ hB, Nat.div_eq_of_lt (by omega)]
          rw [hk, hexact, Nat.mod_self]
          simp only [sentBlocks_append, sentBlocks_dbg, sentBlocks_pinEvents,
            sentBlocks_send, List.nil_append, List.append_nil, List.map_cons,
            List.map_nil, if_pos rfl]
          simp [sentBlocks, List.replicate, hfull]
        · have hgt : B < f.length - pos := by omega
          have hih := ih (pos + ((f.drop pos).take B).length) (bn + 1) false rest
            (by omega) (by omega) hrest
          rw [hfull] at hih
          have hrem2 : f.length - (pos + B) = f.length - pos - B := by omega
          rw [hrem2] at hih
          have harith : f.length - pos + B - 1 = (f.length - pos - B + B - 1) + B := by
            omega
          have hk : (f.length - pos + B - 1) / B = (f.length - pos - B + B - 1) / B + 1 := by
            rw [harith, Nat.add_div_right _ hB]
          have hk1 : 1 ≤ (f.length - pos - B + B - 1) / B := by
            rw [Nat.le_div_iff_mul_le hB]
            omega
          have hmod : (f.length - pos) % B = (f.length - pos - B) % B := by
            have h4 : f.length - pos = B + (f.length - pos - B) := by omega
            conv_lhs => rw [h4]
            rw [Nat.add_mod_left]
          rw [hk, hmod]
          simp only [sentBlocks_append, sentBlocks_dbg, sentBlocks_pinEvents,
            sentBlocks_send, List.nil_append, List.append_nil, List.map_cons,
            List.map_append, List.map_nil, hfull]
          rw [hih]
          have hrepl : (f.length - pos - B + B - 1) / B + 1 - 1 =
              ((f.length - pos - B + B - 1) / B - 1) + 1 := by omega
          rw [hrepl, List.replicate_succ, List.cons_append]
          simp

/-- The chunked loop with the pin flag cleared pins nothing. -/
theorem uploadLoop_pins_notFirst (debug : Bool) (size B : Nat) (f : List Nat) :
    ∀ fuel pos bn es,
      uploadLoop debug size B f fuel pos bn false = Except.ok es →
      pinnedNames es = [] := by
  intro fuel
  induction fuel with
  | zero =>
    intro pos bn es hup
    simp only [uploadLoop] at hup
    injection hup with h
    subst h
    simp [pinnedNames]
  | succ fuel ih =>
    intro pos bn es hup
    by_cases h0 : ((f.drop pos).take B).length = 0
    · simp only [uploadLoop, h0, if_pos] at hup
      injection hup with h
      subst h
      simp [pinnedNames]
    · have hle2 : ((f.drop pos).take B).length ≤ B := by simp [List.length_take]
      by_cases hshort : ((f.drop pos).take B).length < B
      · simp only [uploadLoop, h0, if_false, verifyChunkSize_ok h0 hle2,
          if_pos hshort] at hup
        injection hup with h
        subst h
        simp [pinnedNames_append, pinnedNames_dbg, pinnedNames_send,
          pinnedNames_pinEvents]
      · simp only [uploadLoop, h0, if_false, verifyChunkSize_ok h0 hle2,
          if_neg hshort] at hup
        obtain ⟨rest, hrest⟩ := uploadLoop_isOk debug size B f fuel
          (pos + ((f.drop pos).take B).length) (bn + 1) false
        rw [hrest] at hup
        injection hup with h
        subst h
        have hih := ih (pos + ((f.drop pos).take B).length) (bn + 1) rest hrest
        simp only [pinnedNames_append, pinnedNames_dbg, pinnedNames_send,
          pinnedNames_pinEvents]
        simp [hih]

/-- The chunked loop of a fresh transfer over a nonempty remainder pins
exactly the first block it sends. -/
theorem uploadLoop_pins_first (debug : Bool) (size B : Nat) (hB : 0 < B)
    (f : List Nat) (fuel pos bn : Nat) (es : List Event)
    (hfuel : 0 < fuel) (hpos : pos < f.length)
    (hup : uploadLoop debug size B f fuel pos bn true = Except.ok es) :
    pinnedNames es = [toString (bn + 1)] := by
  obtain ⟨fuel2, rfl⟩ : ∃ k, fuel = k + 1 := ⟨fuel - 1, by omega⟩
  have hlen : ((f.drop pos).take B).length = min B (f.length - pos) := by
    simp [List.length_take, List.length_drop]
  have h0 : ¬((f.drop pos).take B).length = 0 := by omega
  have hle2 : ((f.drop pos).take B).length ≤ B := by simp [List.length_take]
  by_cases hshort : ((f.drop pos).take B).length < B
  · simp only [uploadLoop, h0, if_false, verifyChunkSize_ok h0 hle2,
      if_pos hshort] at hup
    injection hup with h
    subst h
    simp only [pinnedNames_append, pinnedNames_dbg, pinnedNames_send,
      pinnedNames_pin]
    simp [pinnedNames_pin]
  · simp only [uploadLoop, h0, if_false, verifyChunkSize_ok h0 hle2,
      if_neg hshort] at hup
    obtain ⟨rest, hrest⟩ := uploadLoop_isOk debug size B f fuel2
      (pos + ((f.drop pos).take B).length) (bn + 1) false
    rw [hrest] at hup
    injection hup with h
    subst h
    have hih := uploadLoop_pins_notFirst debug size B f fuel2 _ (bn + 1) rest hrest
    simp only [pinnedNames_append, pinnedNames_dbg, pinnedNames_send,
      pinnedNames_pin, hih]
    simp [pinnedNames_pin]

/-- Evaluation of the up command on a fresh upload whose preconditions
pass: it creates the channel, sets its topic, and dispatches on the
single shot versus chunked boundary. -/
theorem up_fresh_eval (debug : Bool) (fileMap : List (String × Channel))
    (maxCh maxFS : Nat) (fileData : List Nat) (remote : String)
    (hfresh : fileMap.lookup remote = none)
    (hcap : fileMap.length < maxCh) :
    up false debug fileMap maxCh maxFS fileData remote =
      match (if fileData.length ≤ maxFS then
              uploadSingleFile debug false fileData.length fileData
            else uploadChunkedFile debug false fileData.length fileData maxFS 0) with
      | Except.error e => Except.error e
      | Except.ok es =>
        Except.ok ([Event.chanCreate, Event.chanEdit (toString fileData.length)] ++ es) := by
  unfold up
  rw [if_neg (fun hcon => absurd hcon.2 (Nat.not_le.mpr hcap)), hfresh]

/-- Evaluation of the up command on a resumed upload whose remote name
resolves: the resume inspection runs, and on success its candidate block
size replaces the transport maximum and its last block index becomes the
starting block. -/
theorem up_resume_eval (debug : Bool) (fileMap : List (String × Channel))
    (maxCh maxFS : Nat) (fileData : List Nat) (remote : String) (c : Channel)
    (hlook : fileMap.lookup remote = some c) :
    up true debug fileMap maxCh maxFS fileData remote =
      match inspectResume c fileData.length maxFS with
      | Except.error e => Except.error e
      | Except.ok (cand, blockNumber) =>
        if fileData.length ≤ cand then
          uploadSingleFile debug true fileData.length fileData
        else uploadChunkedFile debug true fileData.length fileData cand blockNumber := by
  unfold up
  rw [if_neg (fun hcon => Bool.noConfusion hcon.1), hlook]

/-- The fresh chunked run of the up command, evaluated: when the
preconditions pass, the size exceeds the transport maximum and the margin
leaves a positive chunk size, the result is the channel creation and
topic edit followed by the loop events. -/
theorem up_fresh_chunked_run (debug : Bool) (fileMap : List (String × Channel))
    (maxCh maxFS : Nat) (fileData : List Nat) (remote : String) (es0 : List Event)
    (hfresh : fileMap.lookup remote = none)
    (hcap : fileMap.length < maxCh)
    (hB : 50 < maxFS)
    (hchunk : maxFS < fileData.length)
    (hes0 : uploadLoop debug fileData.length (maxFS - 50) fileData
      fileData.length 0 0 true = Except.ok es0) :
    up false debug fileMap maxCh maxFS fileData remote =
      Except.ok ([Event.chanCreate, Event.chanEdit (toString fileData.length)] ++ es0) := by
  rw [up_fresh_eval debug fileMap maxCh maxFS fileData remote hfresh hcap,
    if_neg (Nat.not_le.mpr hchunk)]
  unfold uploadChunkedFile
  rw [if_neg (by omega)]
  simp only [Bool.not_false]
  rw [hes0]

/-- Claim C3: a successful fresh chunked upload of a file of `S` bytes
with negotiated block size `B` (the transport maximum minus the 50 byte
safety margin) sends exactly `ceil(S / B)` blocks named by the contiguous
decimal indices `1 .. ceil(S / B)`, every block except the last carries
exactly `B` bytes, the last carries `S mod B` bytes (a full `B` when `B`
divides `S`), and the payloads concatenated in index order are exactly
the file. -/
theorem up_fresh_chunked_contiguity (debug : Bool)
    (fileMap : List (String × Channel)) (maxCh maxFS : Nat)
    (fileData : List Nat) (remote : String)
    (hfresh : fileMap.lookup remote = none)
    (hcap : fileMap.length < maxCh)
    (hB : 50 < maxFS)
    (hchunk : maxFS < fileData.length) :
    ∃ es, up false debug fileMap maxCh maxFS fileData remote = Except.ok es ∧
      (sentBlocks es).map Prod.fst =
        (List.range' 1 ((fileData.length + (maxFS - 50) - 1) / (maxFS - 50))).map
          (fun i => toString i) ∧
      (sentBlocks es).map (fun b => b.2.length) =
        List.replicate ((fileData.length + (maxFS - 50) - 1) / (maxFS - 50) - 1)
            (maxFS - 50) ++
          [if fileData.length % (maxFS - 50) = 0 then maxFS - 50
           else fileData.length % (maxFS - 50)] ∧
      ((sentBlocks es).map Prod.snd).flatten = fileData := by
  have hB0 : 0 < maxFS - 50 := by omega
  obtain ⟨es0, hes0⟩ := uploadLoop_isOk debug fileData.length (maxFS - 50) fileData
    fileData.length 0 0 true
  refine ⟨_, up_fresh_chunked_run debug fileMap maxCh maxFS fileData remote es0
    hfresh hcap hB hchunk hes0, ?_, ?_, ?_⟩
  · have h := uploadLoop_names debug fileData.length (maxFS - 50) hB0 fileData
      fileData.length 0 0 true es0 (by omega) hes0
    simpa [sentBlocks_append, sentBlocks, Nat.sub_zero] using h
  · have h := uploadLoop_sizes debug fileData.length (maxFS - 50) hB0 fileData
      fileData.length 0 0 true es0 (by omega) (by omega) hes0
    simpa [sentBlocks_append, sentBlocks, Nat.sub_zero] using h
  · have h := uploadLoop_flatten debug fileData.length (maxFS - 50) hB0 fileData
      fileData.length 0 0 true es0 (by omega) hes0
    simpa [sentBlocks_append, sentBlocks, Nat.sub_zero] using h

/-- Witness for C3 at transport maximum 53 (block size 3) and a 55 byte
file: 19 blocks named 1 to 19, eighteen of 3 bytes and a last block of 1
byte, concatenating to the file. -/
theorem up_fresh_chunked_contiguity_witness :
    ∃ es, up false false [] 1 53 (List.range 55) "a" = Except.ok es ∧
      (sentBlocks es).map Prod.fst =
        (List.range' 1 (((List.range 55).length + (53 - 50) - 1) / (53 - 50))).map
          (fun i => toString i) ∧
      (sentBlocks es).map (fun b => b.2.length) =
        List.replicate (((List.range 55).length + (53 - 50) - 1) / (53 - 50) - 1)
            (53 - 50) ++
          [if (List.range 55).length % (53 - 50) = 0 then 53 - 50
           else (List.range 55).length % (53 - 50)] ∧
      ((sentBlocks es).map Prod.snd).flatten = List.range 55 :=
  up_fresh_chunked_contiguity false [] 1 53 (List.range 55) "a" rfl
    (by decide) (by decide) (by simp)

/-- Claim C9: under the fresh upload preconditions with transport maximum
`M` over 50 bytes, a file of exactly `M` bytes takes the single shot path
and is sent as the one block named "1" carrying the whole file, while a
file of `M + 1` bytes takes the chunked path and sends at least two
blocks. -/
theorem up_boundary_single_vs_chunked (debug : Bool)
    (fileMap : List (String × Channel)) (maxCh : Nat) (remote : String)
    (M : Nat) (f g : List Nat)
    (hfresh : fileMap.lookup remote = none)
    (hcap : fileMap.length < maxCh)
    (hM : 50 < M)
    (hf : f.length = M) (hg : g.length = M + 1) :
    (∃ es, up false debug fileMap maxCh M f remote = Except.ok es ∧
      sentBlocks es = [("1", f)]) ∧
    (∃ es, up false debug fileMap maxCh M g remote = Except.ok es ∧
      2 ≤ (sentBlocks es).length) := by
  constructor
  · refine ⟨[Event.chanCreate, Event.chanEdit (toString f.length),
      Event.send "1" f, Event.pin "1"], ?_, ?_⟩
    · rw [up_fresh_eval debug fileMap maxCh M f remote hfresh hcap,
        if_pos (by omega)]
      simp [uploadSingleFile]
    · simp [sentBlocks]
  · have hB0 : 0 < M - 50 := by omega
    obtain ⟨es0, hes0⟩ := uploadLoop_isOk debug g.length (M - 50) g g.length 0 0 true
    refine ⟨[Event.chanCreate, Event.chanEdit (toString g.length)] ++ es0,
      up_fresh_chunked_run debug fileMap maxCh M g remote es0 hfresh hcap hM
        (by omega) hes0, ?_⟩
    have h := uploadLoop_names debug g.length (M - 50) hB0 g g.length 0 0 true es0
      (by omega) hes0
    have hlen : (sentBlocks es0).length = (g.length + (M - 50) - 1) / (M - 50) := by
      have h2 := congrArg List.length h
      simpa using h2
    have hk : 2 ≤ (g.length + (M - 50) - 1) / (M - 50) := by
      rw [Nat.le_div_iff_mul_le hB0]
      omega
    rw [sentBlocks_append]
    have hpre : sentBlocks [Event.chanCreate, Event.chanEdit (toString g.length)] = [] := by
      simp [sentBlocks]
    rw [hpre]
    simp only [List.nil_append]
    omega

/-- Witness for C9 at transport maximum 53: a 53 byte file goes single
shot as block "1", a 54 byte file goes chunked with at least two blocks. -/
theorem up_boundary_single_vs_chunked_witness :
    (∃ es, up false false [] 1 53 (List.range 53) "a" = Except.ok es ∧
      sentBlocks es = [("1", List.range 53)]) ∧
    (∃ es, up false false [] 1 53 (List.range 54) "a" = Except.ok es ∧
      2 ≤ (sentBlocks es).length) :=
  up_boundary_single_vs_chunked false [] 1 "a" 53 (List.range 53) (List.range 54)
    rfl (by decide) (by decide) (by simp) (by simp)

/-- A fresh upload at or over the channel limit is rejected before
anything else happens. -/
theorem up_fresh_limit (debug : Bool) (fileMap : List (String × Channel))
    (maxCh maxFS : Nat) (fileData : List Nat) (remote : String)
    (h : maxCh ≤ fileMap.length) :
    up false debug fileMap maxCh maxFS fileData remote =
      Except.error UpError.channelLimitReached := by
  unfold up
  rw [if_pos ⟨rfl, h⟩]

/-- A fresh upload whose remote name already exists is rejected. -/
theorem up_fresh_exists (debug : Bool) (fileMap : List (String × Channel))
    (maxCh maxFS : Nat) (fileData : List Nat) (remote : String) (c : Channel)
    (hcap : fileMap.length < maxCh)
    (hlook : fileMap.lookup remote = some c) :
    up false debug fileMap maxCh maxFS fileData remote =
      Except.error UpError.remoteExists := by
  unfold up
  rw [if_neg (fun hcon => absurd hcon.2 (Nat.not_le.mpr hcap)), hlook]

/-- A resumed upload whose remote name is absent is rejected. -/
theorem up_resume_missing (debug : Bool) (fileMap : List (String × Channel))
    (maxCh maxFS : Nat) (fileData : List Nat) (remote : String)
    (hlook : fileMap.lookup remote = none) :
    up true debug fileMap maxCh maxFS fileData remote =
      Except.error UpError.remoteMissing := by
  unfold up
  rw [if_neg (fun hcon => Bool.noConfusion hcon.1), hlook]

/-- The fresh single shot run, evaluated. -/
theorem up_fresh_single_run (debug : Bool) (fileMap : List (String × Channel))
    (maxCh maxFS : Nat) (fileData : List Nat) (remote : String)
    (hfresh : fileMap.lookup remote = none)
    (hcap : fileMap.length < maxCh)
    (hsize : fileData.length ≤ maxFS) :
    up false debug fileMap maxCh maxFS fileData remote =
      Except.ok [Event.chanCreate, Event.chanEdit (toString fileData.length),
        Event.send "1" fileData, Event.pin "1"] := by
  rw [up_fresh_eval debug fileMap maxCh maxFS fileData remote hfresh hcap,
    if_pos hsize]
  simp [uploadSingleFile]

/-- A fresh chunked upload whose margin collapses the chunk size fails. -/
theorem up_fresh_chunk_too_small (debug : Bool) (fileMap : List (String × Channel))
    (maxCh maxFS : Nat) (fileData : List Nat) (remote : String)
    (hfresh : fileMap.lookup remote = none)
    (hcap : fileMap.length < maxCh)
    (hsize : ¬fileData.length ≤ maxFS)
    (hcs : maxFS - 50 = 0) :
    up false debug fileMap maxCh maxFS fileData remote =
      Except.error UpError.chunkTooSmall := by
  rw [up_fresh_eval debug fileMap maxCh maxFS fileData remote hfresh hcap,
    if_neg hsize]
  unfold uploadChunkedFile
  rw [if_pos hcs]

/-- The resumed single shot run, evaluated. -/
theorem up_resume_single_run (debug : Bool) (fileMap : List (String × Channel))
    (maxCh maxFS : Nat) (fileData : List Nat) (remote : String) (c : Channel)
    (cand bn : Nat)
    (hlook : fileMap.lookup remote = some c)
    (hins : inspectResume c fileData.length maxFS = Except.ok (cand, bn))
    (hsize : fileData.length ≤ cand) :
    up true debug fileMap maxCh maxFS fileData remote =
      Except.ok [Event.send "1" fileData] := by
  rw [up_resume_eval debug fileMap maxCh maxFS fileData remote c hlook, hins]
  simp [uploadSingleFile, hsize]

/-- The resumed chunked run, evaluated: the loop runs with the inferred
candidate as maximum chunk size and the inferred last block index as the
starting block. -/
theorem up_resume_chunked_run (debug : Bool) (fileMap : List (String × Channel))
    (maxCh maxFS : Nat) (fileData : List Nat) (remote : String) (c : Channel)
    (cand bn : Nat) (es0 : List Event)
    (hlook : fileMap.lookup remote = some c)
    (hins : inspectResume c fileData.length maxFS = Except.ok (cand, bn))
    (hsize : ¬fileData.length ≤ cand)
    (hcs : ¬cand - 50 = 0)
    (hes0 : uploadLoop debug fileData.length (cand - 50) fileData
      fileData.length 0 bn false = Except.ok es0) :
    up true debug fileMap maxCh maxFS fileData remote = Except.ok es0 := by
  rw [up_resume_eval debug fileMap maxCh maxFS fileData remote c hlook, hins]
  show (if fileData.length ≤ cand then
      uploadSingleFile debug true fileData.length fileData
    else uploadChunkedFile debug true fileData.length fileData cand bn) = _
  rw [if_neg hsize]
  unfold uploadChunkedFile
  rw [if_neg hcs]
  simp only [Bool.not_true]
  exact hes0

/-- A resumed chunked upload whose re-subtracted margin collapses the
chunk size fails with the chunk too small error. -/
theorem up_resume_chunk_too_small (debug : Bool) (fileMap : List (String × Channel))
    (maxCh maxFS : Nat) (fileData : List Nat) (remote : String) (c : Channel)
    (cand bn : Nat)
    (hlook : fileMap.lookup remote = some c)
    (hins : inspectResume c fileData.length maxFS = Except.ok (cand, bn))
    (hsize : ¬fileData.length ≤ cand)
    (hcs : cand - 50 = 0) :
    up true debug fileMap maxCh maxFS fileData remote =
      Except.error UpError.chunkTooSmall := by
  rw [up_resume_eval debug fileMap maxCh maxFS fileData remote c hlook, hins]
  show (if fileData.length ≤ cand then
      uploadSingleFile debug true fileData.length fileData
    else uploadChunkedFile debug true fileData.length fileData cand bn) = _
  rw [if_neg hsize]
  unfold uploadChunkedFile
  rw [if_pos hcs]

/-- Claim C7: on every successful upload, the fresh paths pin exactly the
message of the block named "1" (single shot and chunked alike), and the
resumed paths pin nothing; no other message is ever pinned. -/
theorem up_pin_anchor (resume debug : Bool) (fileMap : List (String × Channel))
    (maxCh maxFS : Nat) (fileData : List Nat) (remote : String) (es : List Event)
    (h : up resume debug fileMap maxCh maxFS fileData remote = Except.ok es) :
    pinnedNames es = if resume then [] else ["1"] := by
  cases resume with
  | false =>
    by_cases hcond : maxCh ≤ fileMap.length
    · rw [up_fresh_limit debug fileMap maxCh maxFS fileData remote hcond] at h
      exact Except.noConfusion h
    · have hcap : fileMap.length < maxCh := by omega
      cases hlook : fileMap.lookup remote with
      | some c =>
        rw [up_fresh_exists debug fileMap maxCh maxFS fileData remote c hcap hlook] at h
        exact Except.noConfusion h
      | none =>
        by_cases hsize : fileData.length ≤ maxFS
        · rw [up_fresh_single_run debug fileMap maxCh maxFS fileData remote hlook
            hcap hsize] at h
          injection h with h2
          subst h2
          simp [pinnedNames]
        · by_cases hcs : maxFS - 50 = 0
          · rw [up_fresh_chunk_too_small debug fileMap maxCh maxFS fileData remote
              hlook hcap hsize hcs] at h
            exact Except.noConfusion h
          · obtain ⟨es0, hes0⟩ := uploadLoop_isOk debug fileData.length (maxFS - 50)
              fileData fileData.length 0 0 true
            rw [up_fresh_chunked_run debug fileMap maxCh maxFS fileData remote es0
              hlook hcap (by omega) (by omega) hes0] at h
            injection h with h2
            subst h2
            have hpins := uploadLoop_pins_first debug fileData.length (maxFS - 50)
              (by omega) fileData fileData.length 0 0 es0 (by omega) (by omega) hes0
            rw [pinnedNames_append, hpins]
            have hpre : pinnedNames [Event.chanCreate,
                Event.chanEdit (toString fileData.length)] = [] := by
              simp [pinnedNames]
            rw [hpre]
            have h1 : (toString (0 + 1 : Nat)) = "1" := by decide
            rw [h1]
            simp
  | true =>
    cases hlook : fileMap.lookup remote with
    | none =>
      rw [up_resume_missing debug fileMap maxCh maxFS fileData remote hlook] at h
      exact Except.noConfusion h
    | some c =>
      cases hins : inspectResume c fileData.length maxFS with
      | error e =>
        rw [up_resume_eval debug fileMap maxCh maxFS fileData remote c hlook, hins] at h
        exact Except.noConfusion h
      | ok p =>
        obtain ⟨cand, bn⟩ := p
        by_cases hsize : fileData.length ≤ cand
        · rw [up_resume_single_run debug fileMap maxCh maxFS fileData remote c cand bn
            hlook hins hsize] at h
          injection h with h2
          subst h2
          simp [pinnedNames]
        · by_cases hcs : cand - 50 = 0
          · rw [up_resume_chunk_too_small debug fileMap maxCh maxFS fileData remote c
              cand bn hlook hins hsize hcs] at h
            exact Except.noConfusion h
          · obtain ⟨es0, hes0⟩ := uploadLoop_isOk debug fileData.length (cand - 50)
              fileData fileData.length 0 bn false
            rw [up_resume_chunked_run debug fileMap maxCh maxFS fileData remote c
              cand bn es0 hlook hins hsize hcs hes0] at h
            injection h with h2
            subst h2
            have hpins := uploadLoop_pins_notFirst debug fileData.length (cand - 50)
              fileData fileData.length 0 bn es0 hes0
            simp [hpins]

/-- Witness for C7: a concrete fresh single shot upload pins exactly the
block "1" message. -/
theorem up_pin_anchor_witness :
    pinnedNames [Event.chanCreate, Event.chanEdit "3", Event.send "1" [1, 2, 3],
      Event.pin "1"] = if false then [] else ["1"] :=
  up_pin_anchor false false [] 3 100 [1, 2, 3] "a"
    [Event.chanCreate, Event.chanEdit "3", Event.send "1" [1, 2, 3], Event.pin "1"]
    (by decide)

/-- Claim C5: when the resume inspection succeeds up to the completeness
check and the inferred last block index times the candidate block size
equals the local file size, the command fails with the already complete
error; the error result carries no events, so no message send occurs. -/
theorem up_already_complete (debug : Bool) (fileMap : List (String × Channel))
    (maxCh maxFS : Nat) (fileData : List Nat) (remote : String) (c : Channel)
    (m : Message) (att : Attachment) (atts : List Attachment) (bn : Nat)
    (hlook : fileMap.lookup remote = some c)
    (htopic : c.topic = toString fileData.length)
    (hm : c.msgs.take 1 = [m])
    (hatt : m.attachments = att :: atts)
    (hsize : att.size ≤ maxFS)
    (hlast : findLastBlock (c.msgs.reverse.take 2) att.size = Except.ok bn)
    (hcomplete : bn * att.size = fileData.length) :
    up true debug fileMap maxCh maxFS fileData remote =
      Except.error UpError.alreadyComplete := by
  have hnl : ¬(maxFS < att.size) := Nat.not_lt.mpr hsize
  have hins : inspectResume c fileData.length maxFS =
      Except.error UpError.alreadyComplete := by
    simp only [inspectResume, htopic, hm, hatt, hlast, hnl, hcomplete]
    simp
  rw [up_resume_eval debug fileMap maxCh maxFS fileData remote c hlook, hins]

/-- Witness for C5: a container of two full 2 byte blocks for a 4 byte
file is detected as already complete. -/
theorem up_already_complete_witness :
    up true false
      [("t", { topic := "4",
               msgs := [{ attachments := [{ filename := "1", size := 2 }] },
                        { attachments := [{ filename := "2", size := 2 }] }] })]
      5 60 [9, 9, 9, 9] "t" = Except.error UpError.alreadyComplete :=
  up_already_complete false
    [("t", { topic := "4",
             msgs := [{ attachments := [{ filename := "1", size := 2 }] },
                      { attachments := [{ filename := "2", size := 2 }] }] })]
    5 60 [9, 9, 9, 9] "t"
    { topic := "4",
      msgs := [{ attachments := [{ filename := "1", size := 2 }] },
               { attachments := [{ filename := "2", size := 2 }] }] }
    { attachments := [{ filename := "1", size := 2 }] }
    { filename := "1", size := 2 } [] 2
    (by decide) (by decide) (by decide) (by decide) (by decide) (by decide) (by decide)

/-- Claim C8: resuming against a container whose topic differs from the
decimal string of the local file size fails with the size mismatch error;
the error result carries no events, so no send, pin or channel edit
occurs. -/
theorem up_size_mismatch (debug : Bool) (fileMap : List (String × Channel))
    (maxCh maxFS : Nat) (fileData : List Nat) (remote : String) (c : Channel)
    (hlook : fileMap.lookup remote = some c)
    (htopic : c.topic ≠ toString fileData.length) :
    up true debug fileMap maxCh maxFS fileData remote =
      Except.error UpError.sizeMismatch := by
  have hins : inspectResume c fileData.length maxFS =
      Except.error UpError.sizeMismatch := by
    unfold inspectResume
    rw [if_pos htopic]
  rw [up_resume_eval debug fileMap maxCh maxFS fileData remote c hlook, hins]

/-- Witness for C8: topic "9" against a 3 byte local file is rejected. -/
theorem up_size_mismatch_witness :
    up true false [("t", { topic := "9", msgs := [] })] 5 60 [1, 2, 3] "t" =
      Except.error UpError.sizeMismatch :=
  up_size_mismatch false [("t", { topic := "9", msgs := [] })] 5 60 [1, 2, 3] "t"
    { topic := "9", msgs := [] } (by decide) (by decide)

/-- The scan for the last block only ever fails with the incomplete last
block or malformed block name errors. -/
theorem findLastBlock_error_cases :
    ∀ (msgs : List Message) (cand : Nat) (e : UpError),
      findLastBlock msgs cand = Except.error e →
      e = UpError.incompleteLastBlock ∨ e = UpError.malformedBlockName := by
  intro msgs
  induction msgs with
  | nil =>
    intro cand e h
    exact Except.noConfusion h
  | cons m rest ih =>
    intro cand e h
    cases hatt : m.attachments with
    | nil =>
      simp only [findLastBlock, hatt] at h
      exact ih cand e h
    | cons att atts =>
      simp only [findLastBlock, hatt] at h
      by_cases hsz : att.size ≠ cand
      · rw [if_pos hsz] at h
        injection h with h2
        exact Or.inl h2.symm
      · rw [if_neg hsz] at h
        cases hp : atoi att.filename with
        | none =>
          rw [hp] at h
          injection h with h2
          exact Or.inr h2.symm
        | some b =>
          rw [hp] at h
          exact Except.noConfusion h

/-- The resume inspection never produces the channel limit error. -/
theorem inspectResume_never_channelLimit (c : Channel) (s maxFS : Nat) (e : UpError)
    (h : inspectResume c s maxFS = Except.error e) :
    e ≠ UpError.channelLimitReached := by
  unfold inspectResume at h
  by_cases ht : c.topic ≠ toString s
  · rw [if_pos ht] at h
    injection h with h2
    subst h2
    decide
  · rw [if_neg ht] at h
    cases h1 : c.msgs.take 1 with
    | nil =>
      simp only [h1] at h
      injection h with h2
      subst h2
      decide
    | cons m0 rest0 =>
      simp only [h1] at h
      cases h2 : m0.attachments with
      | nil =>
        simp only [h2] at h
        injection h with h3
        subst h3
        decide
      | cons att atts =>
        simp only [h2] at h
        by_cases h3 : maxFS < att.size
        · rw [if_pos h3] at h
          injection h with h4
          subst h4
          decide
        · rw [if_neg h3] at h
          cases h4 : findLastBlock (c.msgs.reverse.take 2) att.size with
          | error e2 =>
            simp only [h4] at h
            injection h with h5
            subst h5
            rcases findLastBlock_error_cases _ _ _ h4 with h6 | h6 <;> subst h6 <;> decide
          | ok bn =>
            simp only [h4] at h
            by_cases h5 : bn * att.size = s
            · rw [if_pos h5] at h
              injection h with h6
              subst h6
              decide
            · rw [if_neg h5] at h
              exact Except.noConfusion h

/-- Claim C10: the channel limit precondition applies only to fresh
uploads. A fresh upload at or over the limit fails with the channel limit
error for every file and transport state (the error carries no events,
so nothing is opened or written), a resumed upload is completely
independent of the limit, and a resumed upload never fails with the
channel limit error. -/
theorem up_channel_limit_scope (debug : Bool) (fileMap : List (String × Channel))
    (maxCh maxCh2 maxFS : Nat) (fileData : List Nat) (remote : String) :
    (maxCh ≤ fileMap.length →
      up false debug fileMap maxCh maxFS fileData remote =
        Except.error UpError.channelLimitReached) ∧
    (up true debug fileMap maxCh maxFS fileData remote =
      up true debug fileMap maxCh2 maxFS fileData remote) ∧
    (up true debug fileMap maxCh maxFS fileData remote ≠
      Except.error UpError.channelLimitReached) := by
  refine ⟨?_, ?_, ?_⟩
  · intro h
    exact up_fresh_limit debug fileMap maxCh maxFS fileData remote h
  · unfold up
    rw [if_neg (fun hcon => Bool.noConfusion hcon.1),
      if_neg (fun hcon => Bool.noConfusion hcon.1)]
  · intro hcontra
    cases hlook : fileMap.lookup remote with
    | none =>
      rw [up_resume_missing debug fileMap maxCh maxFS fileData remote hlook] at hcontra
      injection hcontra with h2
      exact UpError.noConfusion h2
    | some c =>
      rw [up_resume_eval debug fileMap maxCh maxFS fileData remote c hlook] at hcontra
      cases hins : inspectResume c fileData.length maxFS with
      | error e =>
        simp only [hins] at hcontra
        injection hcontra with h2
        exact inspectResume_never_channelLimit c fileData.length maxFS e hins h2
      | ok p =>
        obtain ⟨cand, bn⟩ := p
        simp only [hins] at hcontra
        by_cases hsize : fileData.length ≤ cand
        · rw [if_pos hsize] at hcontra
          simp [uploadSingleFile] at hcontra
        · rw [if_neg hsize] at hcontra
          unfold uploadChunkedFile at hcontra
          by_cases hcs : cand - 50 = 0
          · rw [if_pos hcs] at hcontra
            injection hcontra with h2
            exact UpError.noConfusion h2
          · rw [if_neg hcs] at hcontra
            simp only [Bool.not_true] at hcontra
            obtain ⟨es0, hes0⟩ := uploadLoop_isOk debug fileData.length (cand - 50)
              fileData fileData.length 0 bn false
            rw [hes0] at hcontra
            exact Except.noConfusion hcontra

/-- Witness for C10: with one existing file channel and a limit of one,
the fresh upload is rejected with the channel limit error, while the
resumed upload of the interrupted `f204` container behaves identically
under limits 1 and 99 and is not rejected by the limit. -/
theorem up_channel_limit_scope_witness :
    (up false false [("t", ch204)] 1 152 f204 "t" =
      Except.error UpError.channelLimitReached) ∧
    (up true false [("t", ch204)] 1 152 f204 "t" =
      up true false [("t", ch204)] 99 152 f204 "t") ∧
    (up true false [("t", ch204)] 1 152 f204 "t" ≠
      Except.error UpError.channelLimitReached) :=
  ⟨(up_channel_limit_scope false [("t", ch204)] 1 99 152 f204 "t").1 (by decide),
    (up_channel_limit_scope false [("t", ch204)] 1 99 152 f204 "t").2.1,
    (up_channel_limit_scope false [("t", ch204)] 1 99 152 f204 "t").2.2⟩

end Dscli
